import Mathlib

/-!
Verification of the pipeline-generation script `snowflake_objects.py`.

The script is a single Airflow DAG file: it loads a YAML configuration,
resolves a Snowflake connection and schema, reads a README, resolves
Airflow variables into a parameter map, and then walks a fixed list of
ten subdirectory names, turning every `*.sql` file into a
`SnowflakeOperator` task, chaining tasks within a `TaskGroup` and
chaining non-empty groups.

The shallow embedding below models the script as a pure function
`genPipeline : GenInput → Except GenError Pipeline`.  All external
effects (filesystem reads, the Airflow connection registry, Airflow
variables) are inputs; every Python exception path (missing file,
missing connection, missing `database` key) is an `Except.error`
outcome, matching the fact that an exception aborts the module import
and no DAG is registered.  String processing is modelled on `List Char`
(Python `str` operations compare and scan by code point).
-/

namespace SnowflakeObjects

/-- Code-point lexicographic comparison of character lists: the order used
by Python `sorted` on strings. -/
def charListLe : List Char → List Char → Bool
  | [], _ => true
  | _ :: _, [] => false
  | a :: as, b :: bs =>
    if a.toNat < b.toNat then true
    else if b.toNat < a.toNat then false
    else charListLe as bs

/-- `strLe a b` is Python `a <= b` on strings (code-point lexicographic). -/
def strLe (a b : String) : Bool := charListLe a.data b.data

/-- The ordering relation used to model Python `sorted(os.listdir(...))`
(line 89 of `snowflake_objects.py`). -/
def strLeR (a b : String) : Prop := strLe a b = true

instance : DecidableRel strLeR := fun a b =>
  inferInstanceAs (Decidable (strLe a b = true))

/-- Model of Python `sorted` on a list of filenames: a stable sort by the
code-point lexicographic order. -/
def sortFilenames (l : List String) : List String := List.insertionSort strLeR l

/-- The characters of the extension `.sql`. -/
def sqlExt : List Char := ['.', 's', 'q', 'l']

/-- Model of `file.endswith('.sql')` (line 90). -/
def endsWithSql (f : String) : Bool := sqlExt.isSuffixOf f.data

/-- `subOccurs pat l` holds when `pat` occurs as a contiguous sublist of
`l`: the model of Python `pat in s` on strings. -/
def subOccurs (pat : List Char) : List Char → Bool
  | [] => pat.isEmpty
  | c :: rest => pat.isPrefixOf (c :: rest) || subOccurs pat rest

/-- Model of the check `"USE" not in sql_query.upper()` (line 98), negated:
`containsUSE s = true` iff the upper-cased text contains the substring
`USE`. -/
def containsUSE (s : String) : Bool :=
  subOccurs ['U', 'S', 'E'] (s.data.map Char.toUpper)

/-- One step of left-to-right scanning for `file.replace('.sql', '')`
(line 92): `fuel` bounds the recursion (it is instantiated with the
length of the list, which always suffices). -/
def removeSqlOccAux : Nat → List Char → List Char
  | _, [] => []
  | 0, l => l
  | fuel + 1, c :: cs =>
    if c :: cs.take 3 = sqlExt then removeSqlOccAux fuel (cs.drop 3)
    else c :: removeSqlOccAux fuel cs

/-- Model of Python `file.replace('.sql', '')`: remove every
(left-to-right, non-overlapping) occurrence of `.sql`. -/
def removeSqlOcc (l : List Char) : List Char := removeSqlOccAux l.length l

/-- The task identifier derived from a filename (line 92):
`f"{file.replace('.sql', '')}"`. -/
def taskIdOf (f : String) : String := String.mk (removeSqlOcc f.data)

/-- The filename with a single trailing `.sql` extension removed and the
rest of the name unchanged.  Modelled from the spec's words ("filename
without extension", read as removing the trailing extension only); used
solely to compare against the identifier the code actually derives. -/
def specTaskIdOf (f : String) : String :=
  if endsWithSql f then String.mk (f.data.take (f.data.length - 4)) else f

/-- Python `dict` assignment `m[k] = v`: if `k` is present its value is
replaced in place (insertion position kept), otherwise the binding is
appended. -/
def dictInsert (m : List (String × String)) (k v : String) :
    List (String × String) :=
  if m.any (fun p => p.1 = k) then
    m.map (fun p => if p.1 = k then (k, v) else p)
  else m ++ [(k, v)]

/-- Python `dict` lookup: association lists built with `dictInsert` have
unique keys, so the first binding is the binding. -/
def dictGet (m : List (String × String)) (k : String) : Option String :=
  (m.find? (fun p => p.1 = k)).map (fun p => p.2)

/-- The parsed `snowflake_ci.yml` configuration (lines 23-26, 45): each
field is `none` when the key is absent from the YAML mapping. -/
structure Config where
  snowflake_conn_id : Option String
  owner : Option String
  tags : Option (List String)
  params : Option (List String)
deriving DecidableEq

/-- The ambient Airflow state the script reads: the connection registry
(`BaseHook.get_connection(...).extra_dejson`, line 29) and the variable
store (`Variable.get`, line 46).  A `none` connection models
`get_connection` raising; a `none` variable models an unset variable
(for which the script supplies the default `""`). -/
structure Env where
  getConnectionExtra : String → Option (List (String × String))
  getVariable : String → Option String

/-- The filesystem as the script sees it.  `configFile` is the parsed
`snowflake_ci.yml` (`none` = missing or malformed, i.e. `open` or
`yaml.safe_load` raises); `readme` is the text of `README.md` (`none` =
missing/unreadable); `listDir d` lists directory `d` under the base
directory (`none` = not a directory, line 81); `readFile d f` is the
text of `d/f` (`none` = unreadable, line 94). -/
structure FS where
  configFile : Option Config
  readme : Option String
  listDir : String → Option (List String)
  readFile : String → String → Option String

/-- Everything the module-level script depends on: the two innermost
path segments of the DAG file's directory (lines 13-14) and the ambient
filesystem and Airflow state. -/
structure GenInput where
  parent_dir_name : String
  directory_name : String
  fs : FS
  env : Env

/-- The ways generation can abort: each constructor is one uncaught
Python exception site. -/
inductive GenError where
  /-- `open(yml_file_path)` or `yaml.safe_load` raises (lines 19-20). -/
  | configUnreadable : GenError
  /-- `BaseHook.get_connection(SNOWFLAKE_CONN_ID)` raises (line 29). -/
  | connectionNotFound : GenError
  /-- `extras['database']` raises `KeyError` (line 30). -/
  | databaseKeyMissing : GenError
  /-- `open(readme_path)` raises (line 40). -/
  | readmeUnreadable : GenError
  /-- `open(file_path)` raises for the SQL file `d/f` (line 94). -/
  | sqlFileUnreadable : String → String → GenError
deriving DecidableEq

/-- One generated `SnowflakeOperator` task (lines 101-107).  `src_file`
records which SQL file the task was created from (ghost data used to
state ordering properties; the operator itself does not store it). -/
structure Task where
  group_id : String
  src_file : String
  task_id : String
  sql : String
  snowflake_conn_id : String
  params : List (String × String)
deriving DecidableEq

/-- One non-empty `TaskGroup` (line 84) together with its tasks in
creation order. -/
structure Group where
  group_id : String
  tasks : List Task
deriving DecidableEq

/-- The generated DAG (lines 49-58) with its recorded task groups. -/
structure Pipeline where
  dag_id : String
  owner : String
  snowflake_conn_id : String
  tags : List String
  doc_md : String
  groups : List Group
deriving DecidableEq

/-- The fixed, ordered list of category subdirectories (lines 61-72). -/
def target_subdirs : List String :=
  ["file_formats", "stages", "tables", "views", "sequences",
   "streams", "functions", "procedures", "tasks", "dml"]

/-- The params-resolution loop (lines 44-46): an empty dict filled by
`params[param_key] = Variable.get(param_key, default_var="")` in
declaration order. -/
def resolveParams (env : Env) (keys : List String) : List (String × String) :=
  keys.foldl (fun m k => dictInsert m k ((env.getVariable k).getD "")) []

/-- The dict literal `{"schema_name": SNOWFLAKE_SCHEMA, **params}`
(line 105): start from the explicit `schema_name` binding and assign
every binding of `params` over it, so a later binding for the same key
overwrites the earlier value (keeping the earlier position). -/
def mergeTaskParams (schema : String) (ps : List (String × String)) :
    List (String × String) :=
  ps.foldl (fun m kv => dictInsert m kv.1 kv.2) [("schema_name", schema)]

/-- The inner per-file loop (lines 89-113) for one category directory
`d`, given the already-sorted listing: skip filenames not ending in
`.sql`; read each remaining file (aborting if unreadable); prepend
`USE <schema>;\n` unless the upper-cased text contains `USE`; build the
operator.  Tasks are returned in creation order (the `prev_task`
chaining links exactly the consecutive pairs of this list). -/
def buildTasks (fs : FS) (schema conn_id : String)
    (merged : List (String × String)) (d : String) :
    List String → Except GenError (List Task)
  | [] => .ok []
  | f :: rest =>
    if endsWithSql f then
      match fs.readFile d f with
      | none => .error (.sqlFileUnreadable d f)
      | some raw =>
        let sql := if containsUSE raw then raw
                   else "USE " ++ schema ++ ";\n" ++ raw
        match buildTasks fs schema conn_id merged d rest with
        | .error e => .error e
        | .ok ts =>
          .ok ({ group_id := d, src_file := f, task_id := taskIdOf f,
                 sql := sql, snowflake_conn_id := conn_id,
                 params := merged } :: ts)
    else buildTasks fs schema conn_id merged d rest

/-- The outer per-category loop (lines 78-123): skip names that are not
directories (line 81); build the tasks of each directory from its sorted
listing; drop groups with zero tasks (lines 115-116); keep the rest in
category order (the `prev_group` chaining links consecutive kept
groups). -/
def buildGroups (fs : FS) (schema conn_id : String)
    (merged : List (String × String)) :
    List String → Except GenError (List Group)
  | [] => .ok []
  | d :: rest =>
    match fs.listDir d with
    | none => buildGroups fs schema conn_id merged rest
    | some files =>
      match buildTasks fs schema conn_id merged d (sortFilenames files) with
      | .error e => .error e
      | .ok ts =>
        match buildGroups fs schema conn_id merged rest with
        | .error e => .error e
        | .ok gs =>
          .ok (if ts.isEmpty then gs else { group_id := d, tasks := ts } :: gs)

/-- The whole module-level script (lines 11-123) as one function, in
source order: load the configuration, extract `SNOWFLAKE_CONN_ID`,
`OWNER`, `TAGS` (appending the owner), resolve the connection and the
`database` extra, build `SNOWFLAKE_SCHEMA`, read `README.md`, resolve
the declared parameters, then build the task groups. -/
def genPipeline (inp : GenInput) : Except GenError Pipeline :=
  match inp.fs.configFile with
  | none => .error .configUnreadable
  | some config =>
    let conn_id := config.snowflake_conn_id.getD "DEFAULT_CONNECTION"
    let owner := config.owner.getD "DEFAULT_OWNER"
    let tags := config.tags.getD [] ++ [owner]
    match inp.env.getConnectionExtra conn_id with
    | none => .error .connectionNotFound
    | some extras =>
      match dictGet extras "database" with
      | none => .error .databaseKeyMissing
      | some database =>
        let schema := database ++ "." ++ inp.directory_name
        match inp.fs.readme with
        | none => .error .readmeUnreadable
        | some readme =>
          let merged := mergeTaskParams schema
            (resolveParams inp.env (config.params.getD []))
          match buildGroups inp.fs schema conn_id merged target_subdirs with
          | .error e => .error e
          | .ok groups =>
            .ok { dag_id := inp.parent_dir_name ++ "_" ++ inp.directory_name,
                  owner := owner, snowflake_conn_id := conn_id,
                  tags := tags, doc_md := readme, groups := groups }

/-- All generated tasks in dependency order: groups in kept order, tasks
within each group in creation order. -/
def chainTasks (p : Pipeline) : List Task := (p.groups.map Group.tasks).flatten

/-- The consecutive pairs of a list: the edges of the linear chain over
it. -/
def consecPairs {α : Type} (l : List α) : List (α × α) := l.zip l.tail

/-- The cross-group dependency created by `prev_group >> tg` (line 121):
in Airflow it links the leaves of the earlier group to the roots of the
later group, which for linearly chained groups is the last task of the
earlier group and the first task of the later one. -/
def glueEdge (g1 g2 : Group) : List (Task × Task) :=
  match g1.tasks.getLast?, g2.tasks.head? with
  | some a, some b => [(a, b)]
  | _, _ => []

/-- All dependency edges of the generated DAG, in creation order: the
within-group edges of `prev_task >> task` (line 110) followed, for each
consecutive pair of kept groups, by the `prev_group >> tg` edge
(line 121). -/
def pipelineEdges : List Group → List (Task × Task)
  | [] => []
  | [g] => consecPairs g.tasks
  | g1 :: g2 :: rest =>
    consecPairs g1.tasks ++ glueEdge g1 g2 ++ pipelineEdges (g2 :: rest)

/-- The number of edges entering `t`: its direct predecessors counted
with multiplicity. -/
def predCount (es : List (Task × Task)) (t : Task) : Nat :=
  (es.filter (fun e => e.2 = t)).length

/-- The number of edges leaving `t`: its direct successors counted with
multiplicity. -/
def succCount (es : List (Task × Task)) (t : Task) : Nat :=
  (es.filter (fun e => e.1 = t)).length

/-! ### Ordering facts for the filename sort -/

theorem charListLe_total : ∀ x y : List Char,
    charListLe x y = true ∨ charListLe y x = true
  | [], _ => Or.inl rfl
  | _ :: _, [] => Or.inr rfl
  | a :: as, b :: bs => by
    rcases Nat.lt_trichotomy a.toNat b.toNat with h | h | h
    · left; simp [charListLe, h]
    · rcases charListLe_total as bs with ih | ih
      · left; simp [charListLe, h, ih, Nat.lt_irrefl]
      · right; simp [charListLe, h.symm, ih, Nat.lt_irrefl]
    · right; simp [charListLe, h]

theorem charListLe_trans : ∀ x y z : List Char,
    charListLe x y = true → charListLe y z = true → charListLe x z = true
  | [], _, _, _, _ => rfl
  | _ :: _, [], _, h, _ => by simp [charListLe] at h
  | _ :: _, _ :: _, [], _, h => by simp [charListLe] at h
  | a :: as, b :: bs, c :: cs, h1, h2 => by
    simp only [charListLe] at h1 h2 ⊢
    by_cases hab : a.toNat < b.toNat <;> by_cases hbc : b.toNat < c.toNat <;>
      simp [hab, hbc] at h1 h2 <;>
      [skip; skip; skip; obtain ⟨hba, h1⟩ := h1] <;>
      [skip; obtain ⟨hcb, h2⟩ := h2; skip;
       obtain ⟨hcb, h2⟩ := h2] <;>
      first
      | (have hac : a.toNat < c.toNat := by omega
         simp [hac])
      | (have hac : ¬a.toNat < c.toNat := by omega
         have hca : ¬c.toNat < a.toNat := by omega
         simp [hac, hca]
         exact charListLe_trans as bs cs h1 h2)

instance strLeR_isTotal : IsTotal String strLeR :=
  ⟨fun a b => charListLe_total a.data b.data⟩

instance strLeR_isTrans : IsTrans String strLeR :=
  ⟨fun a b c => charListLe_trans a.data b.data c.data⟩

theorem sortFilenames_sorted (l : List String) :
    List.Sorted strLeR (sortFilenames l) :=
  List.sorted_insertionSort strLeR l

theorem sortFilenames_perm (l : List String) :
    (sortFilenames l).Perm l :=
  List.perm_insertionSort strLeR l

theorem mem_sortFilenames {a : String} {l : List String} :
    a ∈ sortFilenames l ↔ a ∈ l :=
  (sortFilenames_perm l).mem_iff

theorem sortFilenames_nodup {l : List String} (h : l.Nodup) :
    (sortFilenames l).Nodup :=
  ((sortFilenames_perm l).nodup_iff).mpr h

/-! ### The linear-chain combinatorics of `consecPairs` -/

/-- The single edge joining two blocks: last element of the first to the
first element of the second, when both exist. -/
def glueAB {α : Type} (a b : List α) : List (α × α) :=
  match a.getLast?, b.head? with
  | some x, some y => [(x, y)]
  | _, _ => []

theorem consecPairs_cons {α : Type} (a : α) (l : List α) :
    consecPairs (a :: l) =
      (l.head?.map (fun b => (a, b))).toList ++ consecPairs l := by
  cases l <;> rfl

theorem consecPairs_append {α : Type} :
    ∀ a b : List α,
      consecPairs (a ++ b) = consecPairs a ++ glueAB a b ++ consecPairs b
  | [], b => by simp [consecPairs, glueAB]
  | [x], b => by
    cases b with
    | nil => simp [consecPairs, glueAB]
    | cons y ys => simp [consecPairs_cons, glueAB, consecPairs]
  | x :: z :: a', b => by
    have ih := consecPairs_append (z :: a') b
    have h1 : consecPairs ((x :: z :: a') ++ b) =
        (x, z) :: consecPairs ((z :: a') ++ b) := rfl
    have h2 : consecPairs (x :: z :: a') = (x, z) :: consecPairs (z :: a') := rfl
    have hglue : glueAB (x :: z :: a') b = glueAB (z :: a') b := by
      simp [glueAB, List.getLast?_cons_cons]
    rw [h1, ih, h2, hglue]
    simp

theorem consecPairs_map_snd {α : Type} (l : List α) :
    (consecPairs l).map Prod.snd = l.tail := by
  unfold consecPairs
  exact List.map_snd_zip l l.tail (List.length_tail l ▸ Nat.sub_le _ _)

theorem consecPairs_map_fst {α : Type} :
    ∀ l : List α, (consecPairs l).map Prod.fst = l.dropLast
  | [] => rfl
  | [_] => rfl
  | a :: b :: t => by
    have ih := consecPairs_map_fst (b :: t)
    have h1 : consecPairs (a :: b :: t) = (a, b) :: consecPairs (b :: t) := rfl
    rw [h1, List.map_cons, ih, List.dropLast_cons₂]

/-! ### Python-dict lemmas -/

theorem dictGet_cons (p : String × String) (m : List (String × String))
    (k : String) :
    dictGet (p :: m) k = if p.1 = k then some p.2 else dictGet m k := by
  by_cases hp : p.1 = k
  · rw [dictGet, List.find?_cons_of_pos _ (by simp [hp]), if_pos hp]
    rfl
  · rw [dictGet, List.find?_cons_of_neg _ (by simp [hp]), if_neg hp]
    rfl

/-- In-place reassignment of key `k` does not disturb lookups of other
keys. -/
theorem dictGet_mapAssign_ne (m : List (String × String)) (k v k' : String)
    (h : k' ≠ k) :
    dictGet (m.map (fun p => if p.1 = k then (k, v) else p)) k' =
      dictGet m k' := by
  induction m with
  | nil => rfl
  | cons q rest ih =>
    rw [List.map_cons, dictGet_cons, dictGet_cons]
    by_cases hq : q.1 = k
    · have h1 : (if q.1 = k then (k, v) else q) = (k, v) := if_pos hq
      rw [h1, if_neg (show ¬(k, v).1 = k' from fun hh => h hh.symm),
        if_neg (show ¬q.1 = k' from by rw [hq]; exact fun hh => h hh.symm)]
      exact ih
    · simp only [hq, if_false]
      by_cases hq' : q.1 = k'
      · rw [if_pos hq', if_pos hq']
      · rw [if_neg hq', if_neg hq', ih]

theorem dictGet_mapAssign_self (m : List (String × String)) (k v : String)
    (h : ∃ p ∈ m, p.1 = k) :
    dictGet (m.map (fun p => if p.1 = k then (k, v) else p)) k = some v := by
  induction m with
  | nil => simp at h
  | cons q rest ih =>
    rw [List.map_cons, dictGet_cons]
    by_cases hq : q.1 = k
    · simp [hq]
    · simp only [hq, if_false, if_neg hq]
      apply ih
      rcases h with ⟨p, hp, hpk⟩
      rcases List.mem_cons.mp hp with rfl | hp'
      · exact absurd hpk hq
      · exact ⟨p, hp', hpk⟩

theorem dictGet_append_single_self (m : List (String × String))
    (k v : String) (h : ∀ p ∈ m, p.1 ≠ k) :
    dictGet (m ++ [(k, v)]) k = some v := by
  induction m with
  | nil => simp [dictGet_cons]
  | cons q rest ih =>
    rw [List.cons_append, dictGet_cons,
      if_neg (h q (List.mem_cons_self q rest))]
    exact ih (fun p hp => h p (List.mem_cons_of_mem q hp))

theorem dictGet_append_single_ne (m : List (String × String))
    (k v k' : String) (h : k' ≠ k) :
    dictGet (m ++ [(k, v)]) k' = dictGet m k' := by
  induction m with
  | nil =>
    rw [List.nil_append, dictGet_cons,
      if_neg (show ¬(k, v).1 = k' from fun hh => h hh.symm)]
  | cons q rest ih =>
    rw [List.cons_append, dictGet_cons, dictGet_cons]
    by_cases hq : q.1 = k'
    · rw [if_pos hq, if_pos hq]
    · rw [if_neg hq, if_neg hq, ih]

theorem dictGet_dictInsert_self (m : List (String × String)) (k v : String) :
    dictGet (dictInsert m k v) k = some v := by
  by_cases hany : (m.any fun p => decide (p.1 = k)) = true
  · rw [dictInsert, if_pos hany]
    rcases List.any_eq_true.mp hany with ⟨p, hp, hpk⟩
    exact dictGet_mapAssign_self m k v ⟨p, hp, by simpa using hpk⟩
  · rw [dictInsert, if_neg hany]
    apply dictGet_append_single_self
    intro p hp hpk
    exact hany (List.any_eq_true.mpr ⟨p, hp, by simp [hpk]⟩)

theorem dictGet_dictInsert_ne (m : List (String × String)) (k v k' : String)
    (h : k' ≠ k) : dictGet (dictInsert m k v) k' = dictGet m k' := by
  by_cases hany : (m.any fun p => decide (p.1 = k)) = true
  · rw [dictInsert, if_pos hany]
    exact dictGet_mapAssign_ne m k v k' h
  · rw [dictInsert, if_neg hany]
    exact dictGet_append_single_ne m k v k' h

theorem dictInsert_map_fst (m : List (String × String)) (k v : String) :
    (dictInsert m k v).map Prod.fst =
      if (m.any fun p => decide (p.1 = k)) = true then m.map Prod.fst
      else m.map Prod.fst ++ [k] := by
  by_cases h : (m.any fun p => decide (p.1 = k)) = true
  · rw [dictInsert, if_pos h, if_pos h, List.map_map]
    apply List.map_congr_left
    intro p _
    by_cases hp : p.1 = k
    · simp [hp]
    · simp [hp]
  · rw [dictInsert, if_neg h, if_neg h]
    simp

theorem dictGet_eq_none_iff (m : List (String × String)) (k : String) :
    dictGet m k = none ↔ ∀ p ∈ m, p.1 ≠ k := by
  simp [dictGet, List.find?_eq_none]

/-- Keys absent from the assigned bindings are untouched by a sequence of
dict assignments. -/
theorem foldl_dictInsert_notMem (ps : List (String × String))
    (acc : List (String × String)) (k : String)
    (h : ∀ p ∈ ps, p.1 ≠ k) :
    dictGet (ps.foldl (fun m kv => dictInsert m kv.1 kv.2) acc) k =
      dictGet acc k := by
  induction ps generalizing acc with
  | nil => rfl
  | cons p rest ih =>
    have hp : p.1 ≠ k := h p (List.mem_cons_self p rest)
    have hrest : ∀ q ∈ rest, q.1 ≠ k := fun q hq =>
      h q (List.mem_cons_of_mem p hq)
    rw [List.foldl_cons, ih (dictInsert acc p.1 p.2) hrest,
      dictGet_dictInsert_ne acc p.1 p.2 k (fun hh => hp hh.symm)]

/-- The params-resolution loop binds every declared key to the resolved
variable value (empty string when unset); undeclared keys are absent. -/
theorem dictGet_resolveParams (env : Env) (keys : List String) (k : String) :
    dictGet (resolveParams env keys) k =
      if k ∈ keys then some ((env.getVariable k).getD "") else none := by
  suffices h : ∀ acc, dictGet
      (keys.foldl (fun m k' => dictInsert m k' ((env.getVariable k').getD "")) acc) k =
      if k ∈ keys then some ((env.getVariable k).getD "") else dictGet acc k by
    have := h []
    simpa [resolveParams, dictGet] using this
  induction keys with
  | nil => intro acc; simp
  | cons k0 rest ih =>
    intro acc
    rw [List.foldl_cons, ih]
    by_cases hk : k ∈ rest
    · simp [hk]
    · by_cases hk0 : k = k0
      · simp [hk, hk0, dictGet_dictInsert_self]
      · simp [hk, hk0, dictGet_dictInsert_ne _ _ _ _ hk0]

theorem resolveParams_keys_sub (env : Env) (keys : List String) (k : String)
    (h : k ∉ keys) : ∀ p ∈ resolveParams env keys, p.1 ≠ k := by
  intro p hp
  have hnone : dictGet (resolveParams env keys) k = none := by
    rw [dictGet_resolveParams]; simp [h]
  exact (dictGet_eq_none_iff _ _).mp hnone p hp

theorem resolveParams_fst_nodup (env : Env) (keys : List String) :
    ((resolveParams env keys).map Prod.fst).Nodup := by
  suffices h : ∀ acc : List (String × String), (acc.map Prod.fst).Nodup →
      ((keys.foldl (fun m k => dictInsert m k ((env.getVariable k).getD "")) acc).map
        Prod.fst).Nodup by
    exact h [] (by simp)
  induction keys with
  | nil => intro acc hacc; exact hacc
  | cons k0 rest ih =>
    intro acc hacc
    rw [List.foldl_cons]
    apply ih
    rw [dictInsert_map_fst]
    by_cases hany : acc.any (fun p => decide (p.1 = k0)) = true
    · simpa [hany] using hacc
    · have hnot : ∀ p ∈ acc, p.1 ≠ k0 := by
        intro p hp hc
        exact hany (List.any_eq_true.mpr ⟨p, hp, by simp [hc]⟩)
      have hdisj : (acc.map Prod.fst).Disjoint [k0] := by
        intro a ha hb
        rcases List.mem_map.mp ha with ⟨p, hp, hpa⟩
        rcases List.mem_singleton.mp hb with rfl
        exact hnot p hp hpa
      simpa [hany] using List.Nodup.append hacc (List.nodup_singleton k0) hdisj

/-- When no declared parameter is named `schema_name`, the explicit
binding survives the merge. -/
theorem dictGet_mergeTaskParams_schema (env : Env) (schema : String)
    (keys : List String) (h : "schema_name" ∉ keys) :
    dictGet (mergeTaskParams schema (resolveParams env keys)) "schema_name" =
      some schema := by
  unfold mergeTaskParams
  rw [foldl_dictInsert_notMem _ _ _ (resolveParams_keys_sub env keys _ h)]
  rfl

/-- Every declared parameter key keeps its resolved value through the
merge (whether or not it collides with `schema_name`). -/
theorem dictGet_mergeTaskParams_key (env : Env) (schema : String)
    (keys : List String) (k : String) (h : k ∈ keys) :
    dictGet (mergeTaskParams schema (resolveParams env keys)) k =
      some ((env.getVariable k).getD "") := by
  unfold mergeTaskParams
  suffices hgen : ∀ (ps acc : List (String × String)),
      ((ps.map Prod.fst).Nodup) →
      dictGet ps k = some ((env.getVariable k).getD "") →
      dictGet (ps.foldl (fun m kv => dictInsert m kv.1 kv.2) acc) k =
        some ((env.getVariable k).getD "") by
    apply hgen
    · exact resolveParams_fst_nodup env keys
    · rw [dictGet_resolveParams]; simp [h]
  intro ps
  induction ps with
  | nil => intro acc _ habs; simp [dictGet] at habs
  | cons p rest ih =>
    intro acc hnd hget
    rw [List.map_cons] at hnd
    have hnd' := List.nodup_cons.mp hnd
    rw [List.foldl_cons]
    rw [dictGet_cons] at hget
    by_cases hp : p.1 = k
    · rw [if_pos hp] at hget
      have hval : p.2 = (env.getVariable k).getD "" := Option.some.inj hget
      have hrest : ∀ q ∈ rest, q.1 ≠ k := by
        intro q hq hqk
        exact hnd'.1 (by
          rw [hp, ← hqk]
          exact List.mem_map_of_mem Prod.fst hq)
      rw [foldl_dictInsert_notMem rest _ k hrest, hp,
        dictGet_dictInsert_self, hval]
    · rw [if_neg hp] at hget
      exact ih (dictInsert acc p.1 p.2) hnd'.2 hget

theorem dictInsert_ne_nil (m : List (String × String)) (k v : String) :
    dictInsert m k v ≠ [] := by
  unfold dictInsert
  by_cases hany : (m.any fun p => decide (p.1 = k)) = true
  · rw [if_pos hany]
    cases m with
    | nil => simp at hany
    | cons p rest => simp
  · rw [if_neg hany]
    simp

theorem dictInsert_head_fst (m : List (String × String)) (k v : String)
    (h : m ≠ []) :
    (dictInsert m k v).head?.map Prod.fst = m.head?.map Prod.fst := by
  cases m with
  | nil => cases h rfl
  | cons p rest =>
    unfold dictInsert
    by_cases hany : ((p :: rest).any fun q => decide (q.1 = k)) = true
    · rw [if_pos hany, List.map_cons]
      by_cases hp : p.1 = k
      · simp [hp]
      · simp [hp]
    · rw [if_neg hany]
      rfl

/-- A fold of dict assignments over a non-empty dict keeps the original
first key in first position. -/
theorem foldl_dictInsert_head_fst :
    ∀ (ps acc : List (String × String)), acc ≠ [] →
      (ps.foldl (fun m kv => dictInsert m kv.1 kv.2) acc).head?.map Prod.fst =
        acc.head?.map Prod.fst ∧
      ps.foldl (fun m kv => dictInsert m kv.1 kv.2) acc ≠ []
  | [], acc, h => ⟨rfl, h⟩
  | p :: rest, acc, h => by
    rw [List.foldl_cons]
    have hne := dictInsert_ne_nil acc p.1 p.2
    have ih := foldl_dictInsert_head_fst rest (dictInsert acc p.1 p.2) hne
    exact ⟨ih.1.trans (dictInsert_head_fst acc p.1 p.2 h), ih.2⟩

/-- The merged parameter dict always has `schema_name` as its first key
(first in merge order), whatever value that key ends up holding. -/
theorem mergeTaskParams_head_fst (schema : String)
    (ps : List (String × String)) :
    (mergeTaskParams schema ps).head?.map Prod.fst = some "schema_name" := by
  unfold mergeTaskParams
  exact (foldl_dictInsert_head_fst ps [("schema_name", schema)] (by simp)).1

/-! ### Inversion lemmas for the per-file loop -/

theorem buildTasks_ok_map_src (fs : FS) (schema conn_id : String)
    (merged : List (String × String)) (d : String) :
    ∀ (files : List String) (ts : List Task),
      buildTasks fs schema conn_id merged d files = .ok ts →
      ts.map Task.src_file = files.filter endsWithSql
  | [], ts, h => by
    simp only [buildTasks] at h
    cases h
    rfl
  | f :: rest, ts, h => by
    simp only [buildTasks] at h
    by_cases hf : endsWithSql f = true
    · rw [if_pos hf] at h
      cases hr : fs.readFile d f with
      | none => rw [hr] at h; cases h
      | some raw =>
        rw [hr] at h
        cases hb : buildTasks fs schema conn_id merged d rest with
        | error e => rw [hb] at h; cases h
        | ok ts' =>
          rw [hb] at h
          cases h
          have ih := buildTasks_ok_map_src fs schema conn_id merged d rest ts' hb
          simp [List.filter_cons, hf, ih]
    · rw [if_neg hf] at h
      have ih := buildTasks_ok_map_src fs schema conn_id merged d rest ts h
      simp [List.filter_cons, hf, ih]

theorem buildTasks_ok_mem (fs : FS) (schema conn_id : String)
    (merged : List (String × String)) (d : String) :
    ∀ (files : List String) (ts : List Task),
      buildTasks fs schema conn_id merged d files = .ok ts →
      ∀ t ∈ ts, t.group_id = d ∧ t.params = merged ∧
        t.snowflake_conn_id = conn_id ∧ t.task_id = taskIdOf t.src_file ∧
        endsWithSql t.src_file = true ∧
        ∃ raw, fs.readFile d t.src_file = some raw ∧
          t.sql = (if containsUSE raw then raw
                   else "USE " ++ schema ++ ";\n" ++ raw)
  | [], ts, h => by
    simp only [buildTasks] at h
    cases h
    intro t ht
    cases ht
  | f :: rest, ts, h => by
    simp only [buildTasks] at h
    by_cases hf : endsWithSql f = true
    · rw [if_pos hf] at h
      cases hr : fs.readFile d f with
      | none => rw [hr] at h; cases h
      | some raw =>
        rw [hr] at h
        cases hb : buildTasks fs schema conn_id merged d rest with
        | error e => rw [hb] at h; cases h
        | ok ts' =>
          rw [hb] at h
          cases h
          intro t ht
          rcases List.mem_cons.mp ht with rfl | ht'
          · exact ⟨rfl, rfl, rfl, rfl, hf, raw, hr, rfl⟩
          · exact buildTasks_ok_mem fs schema conn_id merged d rest ts' hb t ht'
    · rw [if_neg hf] at h
      exact buildTasks_ok_mem fs schema conn_id merged d rest ts h

theorem buildTasks_err_of_bad (fs : FS) (schema conn_id : String)
    (merged : List (String × String)) (d : String) :
    ∀ (files : List String) (f : String), f ∈ files →
      endsWithSql f = true → fs.readFile d f = none →
      ∃ e, buildTasks fs schema conn_id merged d files = .error e
  | [], f, hf, _, _ => absurd hf (List.not_mem_nil f)
  | g :: rest, f, hf, hsql, hread => by
    simp only [buildTasks]
    by_cases hg : endsWithSql g = true
    · rw [if_pos hg]
      cases hr : fs.readFile d g with
      | none => exact ⟨.sqlFileUnreadable d g, rfl⟩
      | some raw =>
        have hf' : f ∈ rest := by
          rcases List.mem_cons.mp hf with rfl | hf'
          · rw [hread] at hr; cases hr
          · exact hf'
        rcases buildTasks_err_of_bad fs schema conn_id merged d rest f hf'
          hsql hread with ⟨e, he⟩
        rw [he]
        exact ⟨e, rfl⟩
    · rw [if_neg hg]
      have hf' : f ∈ rest := by
        rcases List.mem_cons.mp hf with rfl | hf'
        · exact absurd hsql hg
        · exact hf'
      exact buildTasks_err_of_bad fs schema conn_id merged d rest f hf' hsql hread

/-! ### Inversion lemmas for the per-category loop -/

theorem buildGroups_ok_ids (fs : FS) (schema conn_id : String)
    (merged : List (String × String)) :
    ∀ (dirs : List String) (gs : List Group),
      buildGroups fs schema conn_id merged dirs = .ok gs →
      (gs.map Group.group_id).Sublist dirs
  | [], gs, h => by
    simp only [buildGroups] at h
    cases h
    exact List.nil_sublist []
  | d :: rest, gs, h => by
    cases hl : fs.listDir d with
    | none =>
      simp only [buildGroups, hl] at h
      exact (buildGroups_ok_ids fs schema conn_id merged rest gs h).cons d
    | some files =>
      simp only [buildGroups, hl] at h
      cases hb : buildTasks fs schema conn_id merged d (sortFilenames files) with
      | error e => rw [hb] at h; cases h
      | ok ts =>
        rw [hb] at h
        cases hg : buildGroups fs schema conn_id merged rest with
        | error e => rw [hg] at h; cases h
        | ok gs' =>
          rw [hg] at h
          cases h
          have ih := buildGroups_ok_ids fs schema conn_id merged rest gs' hg
          by_cases hts : ts.isEmpty = true
          · rw [if_pos hts]
            exact ih.cons d
          · rw [if_neg hts]
            exact List.Sublist.cons₂ d ih

theorem buildGroups_ok_mem (fs : FS) (schema conn_id : String)
    (merged : List (String × String)) :
    ∀ (dirs : List String) (gs : List Group),
      buildGroups fs schema conn_id merged dirs = .ok gs →
      ∀ g ∈ gs, g.tasks ≠ [] ∧ ∃ files,
        fs.listDir g.group_id = some files ∧
        buildTasks fs schema conn_id merged g.group_id (sortFilenames files)
          = .ok g.tasks
  | [], gs, h => by
    simp only [buildGroups] at h
    cases h
    intro g hg
    cases hg
  | d :: rest, gs, h => by
    cases hl : fs.listDir d with
    | none =>
      simp only [buildGroups, hl] at h
      exact buildGroups_ok_mem fs schema conn_id merged rest gs h
    | some files =>
      simp only [buildGroups, hl] at h
      cases hb : buildTasks fs schema conn_id merged d (sortFilenames files) with
      | error e => rw [hb] at h; cases h
      | ok ts =>
        rw [hb] at h
        cases hg : buildGroups fs schema conn_id merged rest with
        | error e => rw [hg] at h; cases h
        | ok gs' =>
          rw [hg] at h
          cases h
          by_cases hts : ts.isEmpty = true
          · rw [if_pos hts]
            exact buildGroups_ok_mem fs schema conn_id merged rest gs' hg
          · rw [if_neg hts]
            intro g hgmem
            rcases List.mem_cons.mp hgmem with rfl | hg'
            · refine ⟨fun hnil => hts ?_, files, hl, hb⟩
              rw [List.isEmpty_iff]
              exact hnil
            · exact buildGroups_ok_mem fs schema conn_id merged rest gs' hg g hg'

theorem buildGroups_not_mem_of_empty (fs : FS) (schema conn_id : String)
    (merged : List (String × String)) :
    ∀ (dirs : List String) (gs : List Group),
      buildGroups fs schema conn_id merged dirs = .ok gs →
      ∀ d : String,
        (fs.listDir d = none ∨
          ∀ files, fs.listDir d = some files →
            ∀ f ∈ files, endsWithSql f = false) →
        ∀ g ∈ gs, g.group_id ≠ d := by
  intro dirs gs h d hd g hg
  have hmem := buildGroups_ok_mem fs schema conn_id merged dirs gs h g hg
  rcases hmem with ⟨hne, files, hl, hb⟩
  intro hid
  rw [hid] at hl hb
  rcases hd with hnone | hempty
  · rw [hnone] at hl
    cases hl
  · have hfilter := buildTasks_ok_map_src fs schema conn_id merged d
      (sortFilenames files) g.tasks hb
    have hnil : (sortFilenames files).filter endsWithSql = [] := by
      rw [List.filter_eq_nil_iff]
      intro a ha
      rw [hempty files hl a (mem_sortFilenames.mp ha)]
      simp
    rw [hnil, List.map_eq_nil_iff] at hfilter
    exact hne hfilter

theorem buildGroups_err_of_bad (fs : FS) (schema conn_id : String)
    (merged : List (String × String)) :
    ∀ (dirs : List String) (d : String), d ∈ dirs →
      ∀ files, fs.listDir d = some files →
      ∀ f ∈ files, endsWithSql f = true → fs.readFile d f = none →
      ∃ e, buildGroups fs schema conn_id merged dirs = .error e
  | [], d, hd, _, _, _, _, _, _ => absurd hd (List.not_mem_nil d)
  | d' :: rest, d, hd, files, hl, f, hf, hsql, hread => by
    rcases List.mem_cons.mp hd with rfl | hd'
    · rcases buildTasks_err_of_bad fs schema conn_id merged d
        (sortFilenames files) f (mem_sortFilenames.mpr hf) hsql hread with ⟨e, he⟩
      refine ⟨e, ?_⟩
      simp only [buildGroups, hl, he]
    · cases hl' : fs.listDir d' with
      | none =>
        rcases buildGroups_err_of_bad fs schema conn_id merged rest d hd'
          files hl f hf hsql hread with ⟨e, he⟩
        refine ⟨e, ?_⟩
        simp only [buildGroups, hl', he]
      | some files' =>
        cases hb : buildTasks fs schema conn_id merged d' (sortFilenames files') with
        | error e =>
          refine ⟨e, ?_⟩
          simp only [buildGroups, hl', hb]
        | ok ts =>
          rcases buildGroups_err_of_bad fs schema conn_id merged rest d hd'
            files hl f hf hsql hread with ⟨e, he⟩
          refine ⟨e, ?_⟩
          simp only [buildGroups, hl', hb, he]

theorem buildGroups_task_group_id (fs : FS) (schema conn_id : String)
    (merged : List (String × String)) (dirs : List String) (gs : List Group)
    (h : buildGroups fs schema conn_id merged dirs = .ok gs) :
    ∀ g ∈ gs, ∀ t ∈ g.tasks, t.group_id = g.group_id := by
  intro g hg t ht
  rcases buildGroups_ok_mem fs schema conn_id merged dirs gs h g hg with
    ⟨_, files, _, hb⟩
  exact (buildTasks_ok_mem fs schema conn_id merged g.group_id
    (sortFilenames files) g.tasks hb t ht).1

theorem buildGroups_chain_nodup (fs : FS) (schema conn_id : String)
    (merged : List (String × String))
    (hfs : ∀ d l, fs.listDir d = some l → l.Nodup) :
    ∀ (dirs : List String) (gs : List Group),
      buildGroups fs schema conn_id merged dirs = .ok gs →
      dirs.Nodup → ((gs.map Group.tasks).flatten).Nodup
  | [], gs, h, _ => by
    simp only [buildGroups] at h
    cases h
    simp
  | d :: rest, gs, h, hnd => by
    have hnd' := List.nodup_cons.mp hnd
    cases hl : fs.listDir d with
    | none =>
      simp only [buildGroups, hl] at h
      exact buildGroups_chain_nodup fs schema conn_id merged hfs rest gs h hnd'.2
    | some files =>
      simp only [buildGroups, hl] at h
      cases hb : buildTasks fs schema conn_id merged d (sortFilenames files) with
      | error e => rw [hb] at h; cases h
      | ok ts =>
        rw [hb] at h
        cases hg : buildGroups fs schema conn_id merged rest with
        | error e => rw [hg] at h; cases h
        | ok gs' =>
          rw [hg] at h
          cases h
          have ihnodup := buildGroups_chain_nodup fs schema conn_id merged hfs
            rest gs' hg hnd'.2
          by_cases hts : ts.isEmpty = true
          · rw [if_pos hts]
            exact ihnodup
          · rw [if_neg hts]
            have htasks_nodup : ts.Nodup := by
              apply List.Nodup.of_map Task.src_file
              rw [buildTasks_ok_map_src fs schema conn_id merged d
                (sortFilenames files) ts hb]
              exact (List.filter_sublist (sortFilenames files)).nodup
                (sortFilenames_nodup (hfs d files hl))
            have hdisj : ts.Disjoint ((gs'.map Group.tasks).flatten) := by
              intro t ht htf
              have hid : t.group_id = d :=
                (buildTasks_ok_mem fs schema conn_id merged d
                  (sortFilenames files) ts hb t ht).1
              rcases List.mem_flatten.mp htf with ⟨l, hl', htl⟩
              rcases List.mem_map.mp hl' with ⟨g', hg', rfl⟩
              have hid' : t.group_id = g'.group_id :=
                buildGroups_task_group_id fs schema conn_id merged rest gs'
                  hg g' hg' t htl
              have : g'.group_id ∈ rest :=
                (buildGroups_ok_ids fs schema conn_id merged rest gs' hg).subset
                  (List.mem_map_of_mem Group.group_id hg')
              rw [← hid', hid] at this
              exact hnd'.1 this
            simp only [List.map_cons, List.flatten_cons]
            exact List.nodup_append.mpr ⟨htasks_nodup, ihnodup, hdisj⟩

/-! ### The generated dependency graph is the chain over the task list -/

theorem pipelineEdges_eq_consecPairs :
    ∀ gs : List Group, (∀ g ∈ gs, g.tasks ≠ []) →
      pipelineEdges gs = consecPairs ((gs.map Group.tasks).flatten)
  | [], _ => rfl
  | [g], _ => by
    simp only [pipelineEdges, List.map_cons, List.map_nil, List.flatten_cons,
      List.flatten_nil, List.append_nil]
  | g1 :: g2 :: rest, h => by
    have ih := pipelineEdges_eq_consecPairs (g2 :: rest)
      (fun g hg => h g (List.mem_cons_of_mem g1 hg))
    have h2 : g2.tasks ≠ [] := h g2 (List.mem_cons_of_mem g1 (List.mem_cons_self g2 rest))
    have hglue : glueAB g1.tasks (((g2 :: rest).map Group.tasks).flatten) =
        glueEdge g1 g2 := by
      unfold glueAB glueEdge
      rw [List.map_cons, List.flatten_cons, List.head?_append]
      cases h2' : g2.tasks with
      | nil => cases h2 h2'
      | cons t ts =>
        simp only [List.head?_cons, Option.or_some]
        cases g1.tasks.getLast? <;> rfl
    rw [List.map_cons, List.flatten_cons, consecPairs_append, hglue,
      show pipelineEdges (g1 :: g2 :: rest) =
        consecPairs g1.tasks ++ glueEdge g1 g2 ++ pipelineEdges (g2 :: rest)
        from rfl, ih]

theorem chainTasks_mem {p : Pipeline} {t : Task} :
    t ∈ chainTasks p ↔ ∃ g ∈ p.groups, t ∈ g.tasks := by
  unfold chainTasks
  rw [List.mem_flatten]
  constructor
  · rintro ⟨l, hl, htl⟩
    rcases List.mem_map.mp hl with ⟨g, hg, rfl⟩
    exact ⟨g, hg, htl⟩
  · rintro ⟨g, hg, htg⟩
    exact ⟨g.tasks, List.mem_map_of_mem Group.tasks hg, htg⟩

/-- At most one element of a duplicate-free list equals `t`. -/
theorem filter_eq_length_le_one_of_nodup {α : Type} [DecidableEq α] :
    ∀ (l : List α), l.Nodup → ∀ t : α,
      (l.filter (fun x => x = t)).length ≤ 1
  | [], _, t => by simp
  | a :: l, h, t => by
    have h' := List.nodup_cons.mp h
    by_cases ha : a = t
    · rw [List.filter_cons_of_pos (by simp [ha])]
      have : l.filter (fun x => x = t) = [] := by
        rw [List.filter_eq_nil_iff]
        intro b hb hbt
        rw [ha] at h'
        exact h'.1 ((by simpa using hbt : b = t) ▸ hb)
      simp [this]
    · rw [List.filter_cons_of_neg (by simp [ha])]
      exact filter_eq_length_le_one_of_nodup l h'.2 t

theorem predCount_consecPairs_le_one (l : List Task) (hl : l.Nodup) (t : Task) :
    predCount (consecPairs l) t ≤ 1 := by
  unfold predCount
  rw [← List.countP_eq_length_filter,
    show (fun e : Task × Task => decide (e.2 = t)) =
      ((fun x : Task => decide (x = t)) ∘ Prod.snd) from rfl,
    ← List.countP_map, consecPairs_map_snd, List.countP_eq_length_filter]
  exact filter_eq_length_le_one_of_nodup l.tail ((List.tail_sublist l).nodup hl) t

theorem succCount_consecPairs_le_one (l : List Task) (hl : l.Nodup) (t : Task) :
    succCount (consecPairs l) t ≤ 1 := by
  unfold succCount
  rw [← List.countP_eq_length_filter,
    show (fun e : Task × Task => decide (e.1 = t)) =
      ((fun x : Task => decide (x = t)) ∘ Prod.fst) from rfl,
    ← List.countP_map, consecPairs_map_fst, List.countP_eq_length_filter]
  exact filter_eq_length_le_one_of_nodup l.dropLast
    ((List.dropLast_sublist l).nodup hl) t

/-! ### Inversion of the whole script -/

theorem genPipeline_ok_inv (inp : GenInput) (p : Pipeline)
    (h : genPipeline inp = .ok p) :
    ∃ config extras database readme,
      inp.fs.configFile = some config ∧
      inp.env.getConnectionExtra
        (config.snowflake_conn_id.getD "DEFAULT_CONNECTION") = some extras ∧
      dictGet extras "database" = some database ∧
      inp.fs.readme = some readme ∧
      buildGroups inp.fs (database ++ "." ++ inp.directory_name)
        (config.snowflake_conn_id.getD "DEFAULT_CONNECTION")
        (mergeTaskParams (database ++ "." ++ inp.directory_name)
          (resolveParams inp.env (config.params.getD [])))
        target_subdirs = .ok p.groups := by
  cases hc : inp.fs.configFile with
  | none => simp [genPipeline, hc] at h
  | some config =>
    cases he : inp.env.getConnectionExtra
        (config.snowflake_conn_id.getD "DEFAULT_CONNECTION") with
    | none => simp [genPipeline, hc, he] at h
    | some extras =>
      cases hd : dictGet extras "database" with
      | none => simp [genPipeline, hc, he, hd] at h
      | some database =>
        cases hr : inp.fs.readme with
        | none => simp [genPipeline, hc, he, hd, hr] at h
        | some readme =>
          cases hb : buildGroups inp.fs (database ++ "." ++ inp.directory_name)
              (config.snowflake_conn_id.getD "DEFAULT_CONNECTION")
              (mergeTaskParams (database ++ "." ++ inp.directory_name)
                (resolveParams inp.env (config.params.getD [])))
              target_subdirs with
          | error e => simp [genPipeline, hc, he, hd, hr, hb] at h
          | ok groups =>
            simp only [genPipeline, hc, he, hd, hr, hb, Except.ok.injEq] at h
            exact ⟨config, extras, database, readme, by simp [hc],
              by simp [he], by simp [hd], by simp [hr], by simp [hb, ← h]⟩

/-- Everything true of every generated task, phrased against the resolved
configuration, connection and schema. -/
theorem genPipeline_task_facts (inp : GenInput) (p : Pipeline)
    (h : genPipeline inp = .ok p)
    (config : Config) (hc : inp.fs.configFile = some config)
    (extras : List (String × String))
    (he : inp.env.getConnectionExtra
      (config.snowflake_conn_id.getD "DEFAULT_CONNECTION") = some extras)
    (database : String) (hd : dictGet extras "database" = some database) :
    ∀ t ∈ chainTasks p,
      t.params = mergeTaskParams (database ++ "." ++ inp.directory_name)
        (resolveParams inp.env (config.params.getD [])) ∧
      t.snowflake_conn_id = config.snowflake_conn_id.getD "DEFAULT_CONNECTION" ∧
      t.task_id = taskIdOf t.src_file ∧
      endsWithSql t.src_file = true ∧
      ∃ raw, inp.fs.readFile t.group_id t.src_file = some raw ∧
        t.sql = (if containsUSE raw then raw
                 else "USE " ++ (database ++ "." ++ inp.directory_name) ++
                   ";\n" ++ raw) := by
  intro t ht
  rcases genPipeline_ok_inv inp p h with
    ⟨config', extras', database', readme', hc', he', hd', _, hb⟩
  rw [hc] at hc'
  cases hc'
  rw [he] at he'
  cases he'
  rw [hd] at hd'
  cases hd'
  rcases chainTasks_mem.mp ht with ⟨g, hg, htg⟩
  rcases buildGroups_ok_mem inp.fs _ _ _ target_subdirs p.groups hb g hg with
    ⟨_, files, _, hbt⟩
  have hfacts := buildTasks_ok_mem inp.fs _ _ _ g.group_id
    (sortFilenames files) g.tasks hbt t htg
  rcases hfacts with ⟨hid, hparams, hconn, htid, hsql, raw, hraw, hsqleq⟩
  exact ⟨hparams, hconn, htid, hsql, raw, hid ▸ hraw, hsqleq⟩

/-- An unreadable listed SQL file always aborts the whole generation. -/
theorem genPipeline_err_of_bad_sql (inp : GenInput) (d : String)
    (hdir : d ∈ target_subdirs) (files : List String)
    (hl : inp.fs.listDir d = some files) (f : String) (hf : f ∈ files)
    (hsql : endsWithSql f = true) (hread : inp.fs.readFile d f = none) :
    ∃ e, genPipeline inp = .error e := by
  cases hc : inp.fs.configFile with
  | none => exact ⟨.configUnreadable, by simp [genPipeline, hc]⟩
  | some config =>
    cases he : inp.env.getConnectionExtra
        (config.snowflake_conn_id.getD "DEFAULT_CONNECTION") with
    | none => exact ⟨.connectionNotFound, by simp [genPipeline, hc, he]⟩
    | some extras =>
      cases hdb : dictGet extras "database" with
      | none => exact ⟨.databaseKeyMissing, by simp [genPipeline, hc, he, hdb]⟩
      | some database =>
        cases hr : inp.fs.readme with
        | none => exact ⟨.readmeUnreadable, by simp [genPipeline, hc, he, hdb, hr]⟩
        | some readme =>
          rcases buildGroups_err_of_bad inp.fs
            (database ++ "." ++ inp.directory_name)
            (config.snowflake_conn_id.getD "DEFAULT_CONNECTION")
            (mergeTaskParams (database ++ "." ++ inp.directory_name)
              (resolveParams inp.env (config.params.getD [])))
            target_subdirs d hdir files hl f hf hsql hread with ⟨e, hbe⟩
          exact ⟨e, by simp [genPipeline, hc, he, hdb, hr, hbe]⟩

/-! ### When `.sql` occurs only as the trailing extension -/

theorem subOccurs_cons_false {pat : List Char} {c : Char} {rest : List Char}
    (h : subOccurs pat (c :: rest) = false) :
    pat.isPrefixOf (c :: rest) = false ∧ subOccurs pat rest = false := by
  have h' := h
  rw [subOccurs, Bool.or_eq_false_iff] at h'
  exact h'

theorem removeSqlOccAux_nil (fuel : Nat) : removeSqlOccAux fuel [] = [] := by
  cases fuel <;> rfl

theorem removeSqlOccAux_stem :
    ∀ (fuel : Nat) (stem : List Char), stem.length + 4 ≤ fuel →
      subOccurs sqlExt stem = false →
      removeSqlOccAux fuel (stem ++ sqlExt) = stem := by
  intro fuel
  induction fuel with
  | zero => intro stem hlen; omega
  | succ fuel ih =>
    intro stem hlen hno
    cases stem with
    | nil =>
      show removeSqlOccAux (fuel + 1) ('.' :: ['s', 'q', 'l']) = []
      rw [removeSqlOccAux, if_pos (show '.' :: List.take 3 ['s', 'q', 'l'] = sqlExt
        from rfl)]
      exact removeSqlOccAux_nil fuel
    | cons c rest =>
      have hno' := subOccurs_cons_false hno
      have hgoal : removeSqlOccAux (fuel + 1) ((c :: rest) ++ sqlExt) =
          removeSqlOccAux (fuel + 1) (c :: (rest ++ sqlExt)) := rfl
      rw [hgoal, removeSqlOccAux]
      have hcond : ¬(c :: (rest ++ sqlExt).take 3 = sqlExt) := by
        intro hc
        have hc' := List.cons.inj hc
        rcases hc' with ⟨rfl, htake⟩
        rcases rest with _ | ⟨a, _ | ⟨b, _ | ⟨d, rest'⟩⟩⟩
        · simp [sqlExt, List.take] at htake
        · simp [sqlExt, List.take] at htake
        · simp [sqlExt, List.take] at htake
        · simp [List.take] at htake
          rcases htake with ⟨rfl, rfl, rfl⟩
          simp [sqlExt, List.isPrefixOf] at hno'
      rw [if_neg hcond]
      have hrest : rest.length + 4 ≤ fuel := by
        have : (c :: rest).length = rest.length + 1 := rfl
        omega
      rw [ih rest hrest hno'.2]

/-- `file.replace('.sql', '')` really is "drop the extension" whenever
`.sql` occurs nowhere in the stem: the code and the spec agree exactly on
such filenames. -/
theorem removeSqlOcc_stem (stem : List Char)
    (h : subOccurs sqlExt stem = false) :
    removeSqlOcc (stem ++ sqlExt) = stem := by
  unfold removeSqlOcc
  apply removeSqlOccAux_stem
  · simp [sqlExt]
  · exact h

/-! ### Concrete example inputs

The fixed category names `tables` and `views` play the roles of the
spec's placeholder categories `A` and `B` (only the ten fixed names are
ever scanned). -/

/-- `PARAMS: [p1, p2]`, every other configuration key absent. -/
def exConfig1 : Config :=
  { snowflake_conn_id := none, owner := none, tags := none,
    params := some ["p1", "p2"] }

/-- Layout with `tables = [2.sql, 1.sql]` and `views = [x.sql]`. -/
def exFS1 : FS :=
  { configFile := some exConfig1
    readme := some "docs"
    listDir := fun d =>
      if d = "tables" then some ["2.sql", "1.sql"]
      else if d = "views" then some ["x.sql"] else none
    readFile := fun d f =>
      if d = "tables" ∧ f = "2.sql" then some "select 2"
      else if d = "tables" ∧ f = "1.sql" then some "select 1"
      else if d = "views" ∧ f = "x.sql" then some "select x" else none }

/-- `p1` is set to `v1`; `p2` is unset; the default connection has
`database = DB`. -/
def exEnv1 : Env :=
  { getConnectionExtra := fun c =>
      if c = "DEFAULT_CONNECTION" then some [("database", "DB")] else none
    getVariable := fun k => if k = "p1" then some "v1" else none }

def exInput1 : GenInput :=
  { parent_dir_name := "proj", directory_name := "dir",
    fs := exFS1, env := exEnv1 }

def emptyPipeline : Pipeline :=
  { dag_id := "", owner := "", snowflake_conn_id := "", tags := [],
    doc_md := "", groups := [] }

def exP1 : Pipeline := (genPipeline exInput1).toOption.getD emptyPipeline

/-- A declared parameter named exactly `schema_name`, set to `v`. -/
def exConfig4 : Config :=
  { snowflake_conn_id := none, owner := none, tags := none,
    params := some ["schema_name"] }

def exFS4 : FS :=
  { configFile := some exConfig4
    readme := some "docs"
    listDir := fun d => if d = "tables" then some ["t.sql"] else none
    readFile := fun d f =>
      if d = "tables" ∧ f = "t.sql" then some "select 1" else none }

def exEnv4 : Env :=
  { getConnectionExtra := fun c =>
      if c = "DEFAULT_CONNECTION" then some [("database", "DB")] else none
    getVariable := fun k => if k = "schema_name" then some "v" else none }

def exInput4 : GenInput :=
  { parent_dir_name := "proj", directory_name := "dir",
    fs := exFS4, env := exEnv4 }

def exP4 : Pipeline := (genPipeline exInput4).toOption.getD emptyPipeline

/-- A filename in which `.sql` occurs twice: `a.sql.sql`. -/
def exFS8 : FS :=
  { configFile := some exConfig1
    readme := some "docs"
    listDir := fun d => if d = "tables" then some ["a.sql.sql"] else none
    readFile := fun d f =>
      if d = "tables" ∧ f = "a.sql.sql" then some "select 1" else none }

def exInput8 : GenInput :=
  { parent_dir_name := "proj", directory_name := "dir",
    fs := exFS8, env := exEnv1 }

def exP8 : Pipeline := (genPipeline exInput8).toOption.getD emptyPipeline

/-- A listed SQL file whose content cannot be read. -/
def exFS3 : FS :=
  { configFile := some exConfig1
    readme := some "docs"
    listDir := fun d => if d = "tables" then some ["b.sql"] else none
    readFile := fun _ _ => none }

def exInput3 : GenInput :=
  { parent_dir_name := "proj", directory_name := "dir",
    fs := exFS3, env := exEnv1 }

/-- Same as `exInput1` but with no readable `README.md`. -/
def exFS10 : FS :=
  { configFile := some exConfig1
    readme := none
    listDir := exFS1.listDir
    readFile := exFS1.readFile }

def exInput10 : GenInput :=
  { parent_dir_name := "proj", directory_name := "dir",
    fs := exFS10, env := exEnv1 }

/-! ### The claims -/

/-- C9: generation is deterministic — modelled as a pure function of the
full input (files, configuration, connection metadata, variable values),
two runs on identical inputs return identical pipelines (same graph
shape and same unit content). -/
theorem claim9_deterministic (i1 i2 : GenInput) (h : i1 = i2) :
    genPipeline i1 = genPipeline i2 :=
  congrArg genPipeline h

theorem claim9_deterministic_witness :
    genPipeline exInput1 = genPipeline exInput1 :=
  claim9_deterministic exInput1 exInput1 rfl

/-- C10: a missing or unreadable `README.md` aborts generation with a
fatal error, whatever the rest of the input looks like, so no pipeline
and no units are registered. -/
theorem claim10_readme_required (inp : GenInput)
    (h : inp.fs.readme = none) : ∃ e, genPipeline inp = .error e := by
  cases hc : inp.fs.configFile with
  | none => exact ⟨.configUnreadable, by simp [genPipeline, hc]⟩
  | some config =>
    cases he : inp.env.getConnectionExtra
        (config.snowflake_conn_id.getD "DEFAULT_CONNECTION") with
    | none => exact ⟨.connectionNotFound, by simp [genPipeline, hc, he]⟩
    | some extras =>
      cases hdb : dictGet extras "database" with
      | none => exact ⟨.databaseKeyMissing, by simp [genPipeline, hc, he, hdb]⟩
      | some database =>
        exact ⟨.readmeUnreadable, by simp [genPipeline, hc, he, hdb, h]⟩

theorem claim10_readme_required_witness :
    ∃ e, genPipeline exInput10 = .error e :=
  claim10_readme_required exInput10 rfl

/-- C3: every generation failure — missing/malformed configuration,
unresolvable connection (no connection, or no `database` in its extras),
or an unreadable listed SQL file — makes the whole generation return an
error, so no pipeline is produced; and conversely a successful
generation has read every listed SQL file. -/
theorem claim3_fatal_errors (inp : GenInput) :
    (inp.fs.configFile = none → ∃ e, genPipeline inp = .error e) ∧
    (∀ config, inp.fs.configFile = some config →
      inp.env.getConnectionExtra
        (config.snowflake_conn_id.getD "DEFAULT_CONNECTION") = none →
      ∃ e, genPipeline inp = .error e) ∧
    (∀ config, inp.fs.configFile = some config →
      ∀ extras, inp.env.getConnectionExtra
        (config.snowflake_conn_id.getD "DEFAULT_CONNECTION") = some extras →
      dictGet extras "database" = none →
      ∃ e, genPipeline inp = .error e) ∧
    (∀ d ∈ target_subdirs, ∀ files, inp.fs.listDir d = some files →
      ∀ f ∈ files, endsWithSql f = true → inp.fs.readFile d f = none →
      ∃ e, genPipeline inp = .error e) ∧
    (∀ p, genPipeline inp = .ok p →
      ∀ d ∈ target_subdirs, ∀ files, inp.fs.listDir d = some files →
      ∀ f ∈ files, endsWithSql f = true → inp.fs.readFile d f ≠ none) := by
  refine ⟨?_, ?_, ?_, ?_, ?_⟩
  · intro h
    exact ⟨.configUnreadable, by simp [genPipeline, h]⟩
  · intro config hc hcon
    exact ⟨.connectionNotFound, by simp [genPipeline, hc, hcon]⟩
  · intro config hc extras he hdb
    exact ⟨.databaseKeyMissing, by simp [genPipeline, hc, he, hdb]⟩
  · intro d hd files hl f hf hsql hread
    exact genPipeline_err_of_bad_sql inp d hd files hl f hf hsql hread
  · intro p hp d hd files hl f hf hsql hread
    rcases genPipeline_err_of_bad_sql inp d hd files hl f hf hsql hread with
      ⟨e, he⟩
    rw [hp] at he
    cases he

theorem claim3_fatal_errors_witness :
    ∃ e, genPipeline exInput3 = .error e :=
  (claim3_fatal_errors exInput3).2.2.2.1 "tables" (by decide) ["b.sql"] rfl
    "b.sql" (by decide) (by decide) rfl

/-- C1: in every generated pipeline the kept categories appear in the
fixed ten-name order (a sublist of `target_subdirs`) and the units of a
category are ordered by the lexicographic filename sort; in particular,
for the layout with categories `tables = [2.sql, 1.sql]` and
`views = [x.sql]` the generated chain is
`tables/1.sql → tables/2.sql → views/x.sql`. -/
theorem claim1_chain_order :
    (∀ (inp : GenInput) (p : Pipeline), genPipeline inp = .ok p →
      (p.groups.map Group.group_id).Sublist target_subdirs ∧
      ∀ g ∈ p.groups, List.Pairwise strLeR (g.tasks.map Task.src_file)) ∧
    (chainTasks exP1).map (fun t => (t.group_id, t.src_file)) =
      [("tables", "1.sql"), ("tables", "2.sql"), ("views", "x.sql")] ∧
    (pipelineEdges exP1.groups).map
      (fun e : Task × Task =>
        ((e.1.group_id, e.1.src_file), (e.2.group_id, e.2.src_file))) =
      [(("tables", "1.sql"), ("tables", "2.sql")),
       (("tables", "2.sql"), ("views", "x.sql"))] := by
  refine ⟨?_, by decide, by decide⟩
  intro inp p h
  rcases genPipeline_ok_inv inp p h with
    ⟨config, extras, database, readme, hc, he, hd, hr, hb⟩
  constructor
  · exact buildGroups_ok_ids inp.fs _ _ _ target_subdirs p.groups hb
  · intro g hg
    rcases buildGroups_ok_mem inp.fs _ _ _ target_subdirs p.groups hb g hg with
      ⟨_, files, _, hbt⟩
    rw [buildTasks_ok_map_src inp.fs _ _ _ g.group_id (sortFilenames files)
      g.tasks hbt]
    exact List.Pairwise.sublist (List.filter_sublist _) (sortFilenames_sorted files)

theorem claim1_chain_order_witness :
    (exP1.groups.map Group.group_id).Sublist target_subdirs ∧
    ∀ g ∈ exP1.groups, List.Pairwise strLeR (g.tasks.map Task.src_file) :=
  claim1_chain_order.1 exInput1 exP1 rfl

/-- C6: a category directory that is absent or holds no `.sql` files
contributes no group (so no unit and no link names it), every kept group
is non-empty, and the dependency edges are exactly the consecutive pairs
of the flattened chain — the last unit of each kept category links
directly to the first unit of the next kept category, with no gap. -/
theorem claim6_empty_category_skipped :
    ∀ (inp : GenInput) (p : Pipeline), genPipeline inp = .ok p →
      (∀ d : String,
        (inp.fs.listDir d = none ∨
          ∀ files, inp.fs.listDir d = some files →
            ∀ f ∈ files, endsWithSql f = false) →
        ∀ g ∈ p.groups, g.group_id ≠ d) ∧
      (∀ g ∈ p.groups, g.tasks ≠ []) ∧
      pipelineEdges p.groups = consecPairs (chainTasks p) := by
  intro inp p h
  rcases genPipeline_ok_inv inp p h with
    ⟨config, extras, database, readme, hc, he, hd, hr, hb⟩
  have hne : ∀ g ∈ p.groups, g.tasks ≠ [] := fun g hg =>
    (buildGroups_ok_mem inp.fs _ _ _ target_subdirs p.groups hb g hg).1
  refine ⟨?_, hne, ?_⟩
  · intro d hdempty g hg
    exact buildGroups_not_mem_of_empty inp.fs _ _ _ target_subdirs p.groups hb
      d hdempty g hg
  · exact pipelineEdges_eq_consecPairs p.groups hne

theorem claim6_empty_category_skipped_witness :
    (∀ d : String,
      (exInput1.fs.listDir d = none ∨
        ∀ files, exInput1.fs.listDir d = some files →
          ∀ f ∈ files, endsWithSql f = false) →
      ∀ g ∈ exP1.groups, g.group_id ≠ d) ∧
    (∀ g ∈ exP1.groups, g.tasks ≠ []) ∧
    pipelineEdges exP1.groups = consecPairs (chainTasks exP1) :=
  claim6_empty_category_skipped exInput1 exP1 rfl

/-- C7: the dependency graph of every generated pipeline is the linear
chain over its task sequence — its edge list is exactly the consecutive
pairs of the chain — and (for directory listings without duplicate
names, as a real filesystem returns) every unit has at most one direct
predecessor and at most one direct successor. -/
theorem claim7_linear_chain :
    ∀ (inp : GenInput) (p : Pipeline), genPipeline inp = .ok p →
      pipelineEdges p.groups = consecPairs (chainTasks p) ∧
      ((∀ d l, inp.fs.listDir d = some l → l.Nodup) →
        ∀ t : Task, predCount (pipelineEdges p.groups) t ≤ 1 ∧
          succCount (pipelineEdges p.groups) t ≤ 1) := by
  intro inp p h
  rcases genPipeline_ok_inv inp p h with
    ⟨config, extras, database, readme, hc, he, hd, hr, hb⟩
  have hne : ∀ g ∈ p.groups, g.tasks ≠ [] := fun g hg =>
    (buildGroups_ok_mem inp.fs _ _ _ target_subdirs p.groups hb g hg).1
  have hedges := pipelineEdges_eq_consecPairs p.groups hne
  refine ⟨hedges, ?_⟩
  intro hfs t
  have hnodup : (chainTasks p).Nodup :=
    buildGroups_chain_nodup inp.fs _ _ _ hfs target_subdirs p.groups hb
      (by decide)
  rw [hedges]
  exact ⟨predCount_consecPairs_le_one (chainTasks p) hnodup t,
    succCount_consecPairs_le_one (chainTasks p) hnodup t⟩

theorem claim7_linear_chain_witness :
    pipelineEdges exP1.groups = consecPairs (chainTasks exP1) ∧
    ∀ t : Task, predCount (pipelineEdges exP1.groups) t ≤ 1 ∧
      succCount (pipelineEdges exP1.groups) t ≤ 1 := by
  have h := claim7_linear_chain exInput1 exP1 rfl
  refine ⟨h.1, h.2 ?_⟩
  intro d l hl
  by_cases h1 : d = "tables"
  · simp [exInput1, exFS1, h1] at hl
    rw [← hl]
    decide
  · by_cases h2 : d = "views"
    · simp [exInput1, exFS1, h1, h2] at hl
      rw [← hl]
      decide
    · simp [exInput1, exFS1, h1, h2] at hl

/-- C2: for every SQL file turned into a unit, if the check (the
case-insensitive substring test for `USE`) finds a match in the file's
text the text is kept verbatim; otherwise exactly the single statement
`USE <resolved schema>;` plus a newline is prepended and nothing else is
rewritten. -/
theorem claim2_use_prepend :
    ∀ (inp : GenInput) (p : Pipeline), genPipeline inp = .ok p →
    ∀ config, inp.fs.configFile = some config →
    ∀ extras, inp.env.getConnectionExtra
      (config.snowflake_conn_id.getD "DEFAULT_CONNECTION") = some extras →
    ∀ database, dictGet extras "database" = some database →
    ∀ t ∈ chainTasks p, ∃ raw,
      inp.fs.readFile t.group_id t.src_file = some raw ∧
      (containsUSE raw = true → t.sql = raw) ∧
      (containsUSE raw = false →
        t.sql = "USE " ++ (database ++ "." ++ inp.directory_name) ++
          ";\n" ++ raw) := by
  intro inp p h config hc extras he database hd t ht
  rcases (genPipeline_task_facts inp p h config hc extras he database hd t ht)
    with ⟨-, -, -, -, raw, hraw, hsql⟩
  refine ⟨raw, hraw, ?_, ?_⟩
  · intro hcu
    rw [hsql, if_pos hcu]
  · intro hcu
    rw [hsql, if_neg (by rw [hcu]; exact Bool.false_ne_true)]

/-- A placeholder task used only as the default of `headD` below. -/
def anyTask : Task :=
  { group_id := "", src_file := "", task_id := "", sql := "",
    snowflake_conn_id := "", params := [] }

/-- The first task of the example pipeline: `tables/1.sql`. -/
def exTask1 : Task := (chainTasks exP1).headD anyTask

theorem claim2_use_prepend_witness :
    exTask1 ∈ chainTasks exP1 ∧ ∃ raw,
      exInput1.fs.readFile exTask1.group_id exTask1.src_file = some raw ∧
      (containsUSE raw = true → exTask1.sql = raw) ∧
      (containsUSE raw = false →
        exTask1.sql = "USE " ++ ("DB" ++ "." ++ exInput1.directory_name) ++
          ";\n" ++ raw) :=
  ⟨by decide, claim2_use_prepend exInput1 exP1 rfl exConfig1 rfl
    [("database", "DB")] rfl "DB" rfl exTask1 (by decide)⟩

/-- C5: every unit receives the same merged parameter map; in it every
declared parameter name maps to its externally resolved value (empty
string when unset) and, as long as no declared name collides with
`schema_name`, the explicit `schema_name` entry maps to the resolved
schema; for `PARAMS: [p1, p2]` with `p1 = v1` and `p2` unset the map of
every unit is `{schema_name: DB.dir, p1: v1, p2: ""}`. -/
theorem claim5_param_map :
    (∀ (inp : GenInput) (p : Pipeline), genPipeline inp = .ok p →
      (∀ t1 ∈ chainTasks p, ∀ t2 ∈ chainTasks p, t1.params = t2.params) ∧
      (∀ config, inp.fs.configFile = some config →
        ∀ extras, inp.env.getConnectionExtra
          (config.snowflake_conn_id.getD "DEFAULT_CONNECTION") = some extras →
        ∀ database, dictGet extras "database" = some database →
        ∀ t ∈ chainTasks p,
          (∀ k ∈ config.params.getD [], dictGet t.params k =
            some ((inp.env.getVariable k).getD "")) ∧
          ("schema_name" ∉ config.params.getD [] →
            dictGet t.params "schema_name" =
              some (database ++ "." ++ inp.directory_name)))) ∧
    (chainTasks exP1).map Task.params =
      [[("schema_name", "DB.dir"), ("p1", "v1"), ("p2", "")],
       [("schema_name", "DB.dir"), ("p1", "v1"), ("p2", "")],
       [("schema_name", "DB.dir"), ("p1", "v1"), ("p2", "")]] := by
  refine ⟨?_, by decide⟩
  intro inp p h
  rcases genPipeline_ok_inv inp p h with
    ⟨config, extras, database, readme, hc, he, hd, hr, hb⟩
  constructor
  · intro t1 ht1 t2 ht2
    have h1 := (genPipeline_task_facts inp p h config hc extras he database hd
      t1 ht1).1
    have h2 := (genPipeline_task_facts inp p h config hc extras he database hd
      t2 ht2).1
    rw [h1, h2]
  · intro config' hc' extras' he' database' hd' t ht
    rw [hc] at hc'
    cases hc'
    rw [he] at he'
    cases he'
    rw [hd] at hd'
    cases hd'
    have hparams := (genPipeline_task_facts inp p h config hc extras he
      database hd t ht).1
    constructor
    · intro k hk
      rw [hparams]
      exact dictGet_mergeTaskParams_key inp.env _ _ k hk
    · intro hns
      rw [hparams]
      exact dictGet_mergeTaskParams_schema inp.env _ _ hns

theorem claim5_param_map_witness :
    (∀ t1 ∈ chainTasks exP1, ∀ t2 ∈ chainTasks exP1, t1.params = t2.params) ∧
    (∀ config, exInput1.fs.configFile = some config →
      ∀ extras, exInput1.env.getConnectionExtra
        (config.snowflake_conn_id.getD "DEFAULT_CONNECTION") = some extras →
      ∀ database, dictGet extras "database" = some database →
      ∀ t ∈ chainTasks exP1,
        (∀ k ∈ config.params.getD [], dictGet t.params k =
          some ((exInput1.env.getVariable k).getD "")) ∧
        ("schema_name" ∉ config.params.getD [] →
          dictGet t.params "schema_name" =
            some (database ++ "." ++ exInput1.directory_name))) :=
  claim5_param_map.1 exInput1 exP1 rfl

/-- C4 counterexample: with `PARAMS: [schema_name]` and the Airflow
variable `schema_name = v`, the resolved schema is `DB.dir` but the
generated unit's map sends `schema_name` to `v` — the explicit
schema-name entry does NOT win the collision, contradicting the claim. -/
theorem claim4_counterexample :
    genPipeline exInput4 = .ok exP4 ∧
    (chainTasks exP4).map (fun t => dictGet t.params "schema_name") =
      [some "v"] ∧
    ¬((chainTasks exP4).map (fun t => dictGet t.params "schema_name") =
      [some ("DB" ++ "." ++ exInput4.directory_name)]) :=
  ⟨rfl, by decide, by decide⟩

/-- C4 amended: the explicit schema-name entry is placed first in merge
order (it is the first key of every unit's map), but when a declared
parameter name collides with the `schema_name` key the externally
resolved value wins the collision, because Python's
`{"schema_name": ..., **params}` lets the later binding overwrite the
earlier one. -/
theorem claim4_merge_order_amended :
    ∀ (inp : GenInput) (p : Pipeline), genPipeline inp = .ok p →
    ∀ config, inp.fs.configFile = some config →
    ∀ extras, inp.env.getConnectionExtra
      (config.snowflake_conn_id.getD "DEFAULT_CONNECTION") = some extras →
    ∀ database, dictGet extras "database" = some database →
    ∀ t ∈ chainTasks p,
      t.params.head?.map Prod.fst = some "schema_name" ∧
      ("schema_name" ∈ config.params.getD [] →
        dictGet t.params "schema_name" =
          some ((inp.env.getVariable "schema_name").getD "")) := by
  intro inp p h config hc extras he database hd t ht
  have hparams := (genPipeline_task_facts inp p h config hc extras he database
    hd t ht).1
  constructor
  · rw [hparams]
    exact mergeTaskParams_head_fst _ _
  · intro hcoll
    rw [hparams]
    exact dictGet_mergeTaskParams_key inp.env _ _ _ hcoll

/-- The single task of the collision example: `tables/t.sql`. -/
def exTask4 : Task := (chainTasks exP4).headD anyTask

theorem claim4_merge_order_amended_witness :
    exTask4 ∈ chainTasks exP4 ∧
    exTask4.params.head?.map Prod.fst = some "schema_name" ∧
    ("schema_name" ∈ exConfig4.params.getD [] →
      dictGet exTask4.params "schema_name" =
        some ((exInput4.env.getVariable "schema_name").getD "")) :=
  ⟨by decide, claim4_merge_order_amended exInput4 exP4 rfl exConfig4 rfl
    [("database", "DB")] rfl "DB" rfl exTask4 (by decide)⟩

/-- C8 counterexample: the file `a.sql.sql` (which ends in `.sql`)
yields the identifier `a`, not `a.sql` — `file.replace('.sql', '')`
removes every occurrence, not only the trailing extension, so the
claim's "rest of the name unchanged" fails. -/
theorem claim8_counterexample :
    genPipeline exInput8 = .ok exP8 ∧
    (chainTasks exP8).map Task.task_id = ["a"] ∧
    specTaskIdOf "a.sql.sql" = "a.sql" ∧
    ¬((chainTasks exP8).map Task.task_id = [specTaskIdOf "a.sql.sql"]) :=
  ⟨rfl, by decide, by decide, by decide⟩

/-- C8 amended: the derived identifier is the filename with every
occurrence of the substring `.sql` removed; when `.sql` occurs nowhere
in the stem (i.e. only as the trailing extension) this coincides with
the filename without its extension. -/
theorem claim8_task_id_amended :
    (∀ (inp : GenInput) (p : Pipeline), genPipeline inp = .ok p →
      ∀ t ∈ chainTasks p, t.task_id = taskIdOf t.src_file) ∧
    (∀ stem : List Char, subOccurs sqlExt stem = false →
      removeSqlOcc (stem ++ sqlExt) = stem) := by
  constructor
  · intro inp p h t ht
    rcases genPipeline_ok_inv inp p h with
      ⟨config, extras, database, readme, hc, he, hd, hr, hb⟩
    exact (genPipeline_task_facts inp p h config hc extras he database hd
      t ht).2.2.1
  · exact removeSqlOcc_stem

theorem claim8_task_id_amended_witness :
    (∀ t ∈ chainTasks exP8, t.task_id = taskIdOf t.src_file) ∧
    removeSqlOcc ("x".data ++ sqlExt) = "x".data :=
  ⟨claim8_task_id_amended.1 exInput8 exP8 rfl,
    claim8_task_id_amended.2 "x".data (by decide)⟩

end SnowflakeObjects
